import Mathlib

/-!
Verification of the jupyter-mynerva action-protocol engine.

This file gives a shallow embedding, in Lean, of the core pure logic of the
jupyter-mynerva JupyterLab extension: the cell fingerprint (`computeCellHash`),
the query resolver and document accessor of the `ContextEngine`
(`findCellIndex`, `getSection`, `queryCells`, `updateCell`, `deleteCell`),
the redaction filter (`Filter.replace` / `applyFilters`), the action
validator (`findSimilarField`, `validateAction`, `validateActions`), the
LLM-response retry loop (`processLLMResponse`), and the auto-approval logic
(`isQueryAutoApproved`, `isActionAutoApproved`, batch auto-approval).

Conventions of the embedding:
* JavaScript strings are modelled by Lean `String`; where the code operates on
  UTF-16 code units (`charCodeAt`), we use `Char.toNat`, which agrees with
  the code unit for all characters of the Basic Multilingual Plane.
* JavaScript 32-bit integer operations are modelled on `Nat` with explicit
  `% 4294967296` folds; signed/unsigned only affects the printed value, which
  the source always folds with `>>> 0` before rendering.
* JavaScript `RegExp` tests used by the `match` query are an external
  primitive; they are threaded through as an oracle `regexTest` parameter.
* Thrown exceptions are modelled with `Except`; stateful mutation of the
  notebook is explicit state (`NotebookState`) passing.
-/

/-! ## Cell fingerprint (src/context.ts, `computeCellHash`) -/

/-- The UTF-16 code units of a string (faithful for BMP characters). -/
def codeUnits (s : String) : List Nat := s.data.map Char.toNat

/-- One step of the hash loop: `hash = (hash * 33) ^ str.charCodeAt(i)`.
JavaScript's `^` converts both operands to 32-bit integers and XORs their bit
patterns; viewed unsigned, the product is folded by `% 2^32` and the code unit
(< 2^16) is unchanged. -/
def hashStep (h c : Nat) : Nat := ((h * 33) % 4294967296) ^^^ c

/-- Lowercase hexadecimal rendering, as `(hash >>> 0).toString(16)`. -/
def toHexString (n : Nat) : String := String.mk (Nat.toDigits 16 n)

/-- Model of `computeCellHash(type, source)` — djb2-variant hash of
`type + '\0' + source`, seed 5381, folded to unsigned 32 bits, lowercase hex. -/
def computeCellHash (type source : String) : String :=
  let str := type ++ "\x00" ++ source
  let hash := (codeUnits str).foldl hashStep 5381
  toHexString (hash % 4294967296)

/-- Reference definition following the spec's words: starting from
accumulator 5381, for each successive code unit `c` of `kind + NUL + content`
the accumulator becomes `(33 * h XOR c)` folded to an unsigned 32-bit value,
and the final accumulator is rendered as lowercase hexadecimal. -/
def fingerprintSpec (kind content : String) : String :=
  let step : Nat → Nat → Nat := fun h c => ((33 * h) ^^^ c) % 4294967296
  toHexString ((codeUnits kind ++ [0] ++ codeUnits content).foldl step 5381)

/-! ## Notebook document model and query resolver (src/context.ts) -/

inductive CellType where
  | code
  | markdown
  | raw
deriving DecidableEq, Repr

/-- The `cell.type` string used for hashing and display. -/
def CellType.toStr : CellType → String
  | .code => "code"
  | .markdown => "markdown"
  | .raw => "raw"

structure Cell where
  id : String
  type : CellType
  source : String
deriving DecidableEq, Repr

/-- The live notebook state visible to the `ContextEngine`: ordered cells,
the active cell index, and the set of selected cell indices. -/
structure NotebookState where
  cells : List Cell
  activeCellIndex : Nat
  selectedIndices : List Nat
deriving Repr

/-- Model of `ICellQuery` — the closed query union.  The `match` discriminant of the
source is named `rmatch` here (`match` is reserved in Lean). -/
inductive ICellQuery where
  | start (n : Nat)
  | id (s : String)
  | contains (s : String)
  | rmatch (pattern : String)
  | active
  | selected
deriving DecidableEq, Repr

def isPrefixList : List Char → List Char → Bool
  | [], _ => true
  | _ :: _, [] => false
  | a :: as, b :: bs => a == b && isPrefixList as bs

def listContainsSub : List Char → List Char → Bool
  | [], needle => needle.isEmpty
  | c :: rest, needle => isPrefixList needle (c :: rest) || listContainsSub rest needle

/-- JavaScript `haystack.includes(needle)` (case-sensitive substring test). -/
def strIncludes (s sub : String) : Bool := listContainsSub s.data sub.data

/-- Pair each list element with its index, starting from `n`. -/
def enumFrom {α : Type} : Nat → List α → List (Nat × α)
  | _, [] => []
  | n, a :: rest => (n, a) :: enumFrom (n + 1) rest

/-- Model of `matchesQuery` from `ContextEngine`.  JavaScript `RegExp` evaluation for
the `match` query is an external primitive, threaded as the `regexTest`
oracle (a pure function of pattern and subject, as a fresh
`new RegExp(pattern).test(subject)` is). -/
def matchesQuery (regexTest : String → String → Bool) (cell : Cell) (index : Nat)
    (query : ICellQuery) (activeCellIndex : Nat) (selectedIndices : List Nat) : Bool :=
  match query with
  | .start n => index == n
  | .id s => cell.id == s
  | .contains s => strIncludes cell.source s
  | .rmatch pattern => regexTest pattern cell.source
  | .active => index == activeCellIndex
  | .selected => selectedIndices.contains index

def findCellIndexAux (regexTest : String → String → Bool) (query : ICellQuery)
    (activeCellIndex : Nat) (selectedIndices : List Nat) :
    Nat → List Cell → Option Nat
  | _, [] => none
  | i, c :: rest =>
    if matchesQuery regexTest c i query activeCellIndex selectedIndices then some i
    else findCellIndexAux regexTest query activeCellIndex selectedIndices (i + 1) rest

/-- Model of `findCellIndex` — linear scan in index order, first match wins;
`none` models the thrown "No cell matches query" error. -/
def findCellIndex (regexTest : String → String → Bool) (st : NotebookState)
    (query : ICellQuery) : Option Nat :=
  findCellIndexAux regexTest query st.activeCellIndex st.selectedIndices 0 st.cells

/-- Model of `ICellData` — the per-cell payload returned to the model. -/
structure ICellData where
  index : Nat
  id : String
  type : CellType
  source : String
  isActive : Bool
  isSelected : Bool
  _hash : String
deriving DecidableEq, Repr

/-- Model of `cellToData` from `ContextEngine`. -/
def cellToData (cell : Cell) (index activeCellIndex : Nat)
    (selectedIndices : List Nat) : ICellData :=
  { index := index
    id := cell.id
    type := cell.type
    source := cell.source
    isActive := index == activeCellIndex
    isSelected := selectedIndices.contains index
    _hash := computeCellHash cell.type.toStr cell.source }

/-! ### Heading parsing

`parseHeading` runs `source.match(/^(#{1,6})\s+(.+)$/m)`.  With the `m` flag
the anchor `^` matches at the string start and after every newline, and the
engine returns the leftmost match, so candidate positions are the line starts
in order.  At a candidate position the greedy run of `#` must have length
1–6 and be followed by at least one whitespace character; `\s+` then `(.+)$`
split the remainder so that the captured text is the maximal run of
non-newline characters after the maximal whitespace run (with regex
backtracking giving a single whitespace character as the capture, hence an
empty trimmed text, when everything after the `#` run is whitespace). -/

/-- JavaScript `\s` on the characters that occur in practice
(ASCII whitespace and NBSP). -/
def isJsWhitespace (c : Char) : Bool :=
  c == ' ' || c == '\t' || c == '\n' || c == '\r' || c == '\x0b' ||
    c == '\x0c' || c == '\xa0'

/-- JavaScript `String.prototype.trim`. -/
def trimWs (l : List Char) : List Char :=
  ((l.dropWhile isJsWhitespace).reverse.dropWhile isJsWhitespace).reverse

/-- Try to match `(#{1,6})\s+(.+)$` at one candidate (line-start) position. -/
def matchHeadingAt (cs : List Char) : Option (Nat × String) :=
  let k := (cs.takeWhile (· == '#')).length
  if k = 0 ∨ 6 < k then none
  else
    let r := cs.drop k
    let w0 := r.takeWhile isJsWhitespace
    if w0.isEmpty then none
    else
      let u := r.drop w0.length
      if u.isEmpty then
        -- `r` is entirely whitespace: `\s+(.+)$` matches only by backtracking,
        -- capturing one non-newline whitespace character at a position ≥ 1;
        -- the captured text trims to "".
        if (enumFrom 0 r).any (fun p => decide (1 ≤ p.1) && p.2 != '\n') then
          some (k, "")
        else none
      else
        let t := u.takeWhile (· != '\n')
        some (k, String.mk (trimWs t))

/-- The suffixes of the character list that start just after each newline. -/
def lineSuffixesAux : List Char → List (List Char)
  | [] => []
  | c :: rest =>
    if c = '\n' then rest :: lineSuffixesAux rest else lineSuffixesAux rest

/-- Model of `parseHeading` — first line-start position whose suffix matches the
heading pattern; returns the heading level and trimmed text. -/
def parseHeading (source : String) : Option (Nat × String) :=
  (source.data :: lineSuffixesAux source.data).findSome? matchHeadingAt

/-! ### Document accessor operations -/

/-- Errors thrown by the accessor that the claims distinguish. -/
inductive EngineError where
  | noMatch (query : ICellQuery)
  | hashMismatch (expected got : String)
deriving DecidableEq, Repr

def defaultCell : Cell := { id := "", type := .raw, source := "" }

/-- The collection loop of `getSection`: walk the cells after the start index
and stop (exclusively) at the first cell whose own heading level is ≤ the
start heading's level. -/
def collectSection (activeCellIndex : Nat) (selectedIndices : List Nat)
    (level : Nat) : List (Nat × Cell) → List ICellData
  | [] => []
  | (i, c) :: rest =>
    match parseHeading c.source with
    | some (l, _) =>
      if l ≤ level then []
      else cellToData c i activeCellIndex selectedIndices ::
        collectSection activeCellIndex selectedIndices level rest
    | none =>
      cellToData c i activeCellIndex selectedIndices ::
        collectSection activeCellIndex selectedIndices level rest

/-- Model of `ContextEngine.getSection`. -/
def getSection (regexTest : String → String → Bool) (st : NotebookState)
    (query : ICellQuery) : Except EngineError (List ICellData) :=
  match findCellIndex regexTest st query with
  | none => .error (.noMatch query)
  | some startIndex =>
    let startCell := st.cells.getD startIndex defaultCell
    match parseHeading startCell.source with
    | none =>
      .ok [cellToData startCell startIndex st.activeCellIndex st.selectedIndices]
    | some (level, _) =>
      .ok (cellToData startCell startIndex st.activeCellIndex st.selectedIndices ::
        collectSection st.activeCellIndex st.selectedIndices level
          ((enumFrom 0 st.cells).drop (startIndex + 1)))

/-- Model of `ContextEngine.queryCells` (the engine behind the `getCells` action).
`count ? Math.min(startIndex + count, length) : length` — note that a count
of `0` is falsy in JavaScript and selects the `length` branch. -/
def queryCells (regexTest : String → String → Bool) (st : NotebookState)
    (query : ICellQuery) (count : Option Nat) : Except EngineError (List ICellData) :=
  match findCellIndex regexTest st query with
  | none => .error (.noMatch query)
  | some startIndex =>
    let endIndex :=
      match count with
      | some c => if c = 0 then st.cells.length else min (startIndex + c) st.cells.length
      | none => st.cells.length
    .ok ((((enumFrom 0 st.cells).drop startIndex).take (endIndex - startIndex)).map
      (fun p => cellToData p.2 p.1 st.activeCellIndex st.selectedIndices))

/-- Model of `ContextEngine.updateCell` — returns the (possibly unchanged) notebook
state together with the result; the cell is only mutated after the
fingerprint check passes. -/
def updateCell (regexTest : String → String → Bool) (st : NotebookState)
    (query : ICellQuery) (source _hash : String) :
    NotebookState × Except EngineError ICellData :=
  match findCellIndex regexTest st query with
  | none => (st, .error (.noMatch query))
  | some index =>
    let cell := st.cells.getD index defaultCell
    let currentHash := computeCellHash cell.type.toStr cell.source
    if currentHash ≠ _hash then
      (st, .error (.hashMismatch _hash currentHash))
    else
      let newCell := { cell with source := source }
      ({ cells := st.cells.set index newCell
         activeCellIndex := index
         selectedIndices := st.selectedIndices },
       .ok (cellToData newCell index index st.selectedIndices))

/-- Model of `ContextEngine.deleteCell`. -/
def deleteCell (regexTest : String → String → Bool) (st : NotebookState)
    (query : ICellQuery) (_hash : String) :
    NotebookState × Except EngineError (Nat × String) :=
  match findCellIndex regexTest st query with
  | none => (st, .error (.noMatch query))
  | some index =>
    let cell := st.cells.getD index defaultCell
    let currentHash := computeCellHash cell.type.toStr cell.source
    if currentHash ≠ _hash then
      (st, .error (.hashMismatch _hash currentHash))
    else
      let newCells := st.cells.eraseIdx index
      let newCellCount := newCells.length
      ({ cells := newCells
         activeCellIndex :=
           if 0 < newCellCount then min index (newCellCount - 1)
           else st.activeCellIndex
         selectedIndices := st.selectedIndices },
       .ok (index, cell.id))

/-! ## Claims about the document accessor -/

/-- A regex oracle for concrete runs (no `match` queries are involved). -/
def regexFalse : String → String → Bool := fun _ _ => false

/-- The cell a resolved index denotes. -/
def cellAt (st : NotebookState) (i : Nat) : Cell := st.cells.getD i defaultCell

/-- A one-cell notebook used as a concrete witness document. -/
def oneCellDoc : NotebookState :=
  { cells := [{ id := "c0", type := .code, source := "print(1)" }]
    activeCellIndex := 0
    selectedIndices := [] }

/-- A cell at which the section-collection loop stops: it carries a heading
whose level is ≤ the start heading's level. -/
def stopsAtLevel (level : Nat) (c : Cell) : Bool :=
  match parseHeading c.source with
  | some (l, _) => decide (l ≤ level)
  | none => false

/-- The `[H1 "A", code, H2 "B", code, H1 "C"]` document of the claim. -/
def fiveCellDoc : NotebookState :=
  { cells :=
      [{ id := "c0", type := .markdown, source := "# A" },
       { id := "c1", type := .code, source := "x=1" },
       { id := "c2", type := .markdown, source := "## B" },
       { id := "c3", type := .code, source := "y=2" },
       { id := "c4", type := .markdown, source := "# C" }]
    activeCellIndex := 0
    selectedIndices := [] }

/-- Project the indices out of an accessor result. -/
def resultIndices (r : Except EngineError (List ICellData)) : List Nat :=
  match r with
  | .ok l => l.map (fun d => d.index)
  | .error _ => []

/-- A two-cell notebook used to exhibit the `count: 0` behaviour. -/
def twoCellDoc : NotebookState :=
  { cells :=
      [{ id := "c0", type := .code, source := "a" },
       { id := "c1", type := .code, source := "b" }]
    activeCellIndex := 0
    selectedIndices := [] }

/-! ## Redaction filter (src/filter.ts)

Wrapped in a `Redaction` namespace because `Filter` already names a Mathlib
concept. -/

namespace Redaction

/-- The `IFilter` rule shape: a regex pattern and a label template. -/
structure IFilter where
  pattern : String
  label : String
deriving DecidableEq, Repr

/-- The decomposition of a text by a rule's global regex, as produced by the
external JavaScript regex engine: literal stretches interleaved with the
successive non-overlapping matches, left to right. -/
inductive Piece where
  | lit (s : String)
  | hit (s : String)
deriving DecidableEq, Repr

/-- A `Filter` instance: the compiled rule plus its memo state
(`valueMap`, `counter`). -/
structure Filter where
  pattern : String
  label : String
  valueMap : List (String × Nat)
  counter : Nat
deriving DecidableEq, Repr

/-- A fresh instance, as `new Filter(f)`. -/
def mkFilter (spec : IFilter) : Filter :=
  { pattern := spec.pattern, label := spec.label, valueMap := [], counter := 0 }

/-- Model of `label.replace('#', String(num))` — JavaScript `replace` with a string
pattern substitutes only the first occurrence. -/
def replaceFirstHash : List Char → String → List Char
  | [], _ => []
  | c :: rest, rep => if c = '#' then rep.data ++ rest else c :: replaceFirstHash rest rep

/-- Model of `Filter.formatLabel`. -/
def formatLabelFn (label : String) (num : Nat) : String :=
  if strIncludes label "#" then String.mk (replaceFirstHash label.data (toString num))
  else label

/-- Model of `Filter.replace` over the regex decomposition of the text: the callback
looks each matched substring up in `valueMap`, assigning `++counter` on first
sight and reusing the memoized number afterwards. -/
def Filter.replacePieces (f : Filter) : List Piece → Filter × String
  | [] => (f, "")
  | .lit s :: rest =>
    let r := f.replacePieces rest
    (r.1, s ++ r.2)
  | .hit m :: rest =>
    match List.lookup m f.valueMap with
    | some existing =>
      let r := f.replacePieces rest
      (r.1, formatLabelFn f.label existing ++ r.2)
    | none =>
      let counter := f.counter + 1
      let f1 : Filter :=
        { f with counter := counter, valueMap := f.valueMap ++ [(m, counter)] }
      let r := f1.replacePieces rest
      (r.1, formatLabelFn f.label counter ++ r.2)

/-- Model of `applyFilters` — a fresh set of rule instances per call, piped left to
right; the regex engine's decomposition of each intermediate text is the
external oracle `regexDecomp pattern text`. -/
def applyFilters (regexDecomp : String → String → List Piece)
    (filters : List IFilter) (text : String) : String :=
  (filters.map mkFilter).foldl
    (fun result f => (f.replacePieces (regexDecomp f.pattern result)).2) text

/-! ### First-seen numbering, as the spec words it -/

/-- Record a value in first-seen order. -/
def seenInsert (seen : List String) (s : String) : List String :=
  if seen.contains s then seen else seen ++ [s]

/-- The distinct values of a stream, in first-seen order. -/
def distinctList (ms : List String) : List String := ms.foldl seenInsert []

/-- The number a rule assigns to match `m` after having processed the match
stream `ps`: one plus the count of distinct values seen strictly before the
first occurrence of `m`. -/
def assignedNumber (ps : List String) (m : String) : Nat :=
  (distinctList (ps.takeWhile (fun x => x != m))).length + 1

/-- Render a piece list with first-seen numbering, threading the processed
match stream. -/
def renderFrom (label : String) (ps : List String) : List Piece → String
  | [] => ""
  | .lit s :: rest => s ++ renderFrom label ps rest
  | .hit m :: rest =>
    formatLabelFn label (assignedNumber ps m) ++ renderFrom label (ps ++ [m]) rest

/-- The IP rule of the spec's example. -/
def ipRule : IFilter :=
  { pattern := "[0-9]+\\.[0-9]+\\.[0-9]+\\.[0-9]+", label := "IP_#" }

/-- A concrete regex-engine oracle: the decompositions of the two texts the
example runs on. -/
def ipDecomp : String → String → List Piece := fun _ text =>
  if text = "a 10.0.0.1 b 10.0.0.1 c 10.0.0.2" then
    [.lit "a ", .hit "10.0.0.1", .lit " b ", .hit "10.0.0.1", .lit " c ",
     .hit "10.0.0.2"]
  else if text = "x 10.9.9.9" then [.lit "x ", .hit "10.9.9.9"]
  else [.lit text]

end Redaction

/-! ## Action validator (src/actions/validator.ts) -/

/-- JSON-decoded JavaScript values, as produced by `JSON.parse`. -/
inductive JValue where
  | null
  | bool (b : Bool)
  | num (n : Int)
  | str (s : String)
  | arr (elems : List JValue)
  | obj (fields : List (String × JValue))
deriving BEq, Repr

/-- Property access `obj[field]`; `none` models `undefined` (fields of
JSON-parsed objects are never themselves `undefined`). -/
def lookupField (fields : List (String × JValue)) (key : String) : Option JValue :=
  List.lookup key fields

/-- The `ACTION_SCHEMAS` table: action type → (required, optional) fields. -/
def ACTION_SCHEMAS : List (String × (List String × List String)) :=
  [("getToc", ([], [])),
   ("getSection", (["query"], [])),
   ("getCells", (["query"], ["count"])),
   ("getOutput", (["query"], [])),
   ("listNotebookFiles", ([], ["path"])),
   ("getTocFromFile", (["path"], [])),
   ("getSectionFromFile", (["path", "query"], [])),
   ("getCellsFromFile", (["path", "query"], ["count"])),
   ("getOutputFromFile", (["path", "query"], [])),
   ("insertCell", (["position", "cellType", "source"], [])),
   ("updateCell", (["query", "source", "_hash"], [])),
   ("deleteCell", (["query", "_hash"], [])),
   ("runCell", (["query"], [])),
   ("listHelp", ([], [])),
   ("help", (["action"], []))]

/-- JavaScript `toLowerCase`, modelled per character. -/
def strToLower (s : String) : String := String.mk (s.data.map Char.toLower)

/-- Model of `findSimilarField` — per known field, first try case-insensitive
equality, then substring containment in either direction; first hit wins. -/
def findSimilarField (unknownField : String) (knownFields : List String) :
    Option String :=
  let lower := strToLower unknownField
  knownFields.findSome? (fun field =>
    if strToLower field == lower then some field
    else if strIncludes lower (strToLower field) || strIncludes (strToLower field) lower then
      some field
    else none)

/-- Model of `validateAction` — structural validation of one candidate action;
returns the ordered error list.  JavaScript quirks preserved: `null` and
non-objects fail the object check but arrays pass it; a missing, non-string
or empty-string `type` is reported as a missing `type`; required fields must
be present and non-`null`; value types are never inspected. -/
def validateAction (action : JValue) (index : Nat) : List String :=
  match action with
  | .obj fields =>
    match lookupField fields "type" with
    | some (.str type) =>
      if type = "" then [s!"Action {index}: Missing required field \"type\""]
      else
        match List.lookup type ACTION_SCHEMAS with
        | none =>
          let knownTypes := String.intercalate ", " (ACTION_SCHEMAS.map (fun p => p.1))
          [s!"Action {index}: Unknown action type \"{type}\". Valid types: {knownTypes}"]
        | some (required, optional) =>
          let allKnownFields := "type" :: (required ++ optional)
          let missingErrors := (required.filter (fun field =>
              match lookupField fields field with
              | none => true
              | some .null => true
              | some _ => false)).map (fun field =>
            s!"Action {index} ({type}): Missing required field \"{field}\"")
          let unknownErrors := ((fields.map (fun p => p.1)).filter
              (fun key => !allKnownFields.contains key)).map (fun key =>
            match findSimilarField key allKnownFields with
            | some similar =>
              s!"Action {index} ({type}): Unknown field \"{key}\" (did you mean \"{similar}\"?)"
            | none =>
              let validFields := String.intercalate ", " allKnownFields
              s!"Action {index} ({type}): Unknown field \"{key}\". Valid fields: {validFields}")
          missingErrors ++ unknownErrors
    | _ => [s!"Action {index}: Missing required field \"type\""]
  | .arr _ => [s!"Action {index}: Missing required field \"type\""]
  | _ => [s!"Action {index}: Invalid action format (expected object)"]

structure IValidationResult where
  valid : Bool
  errors : List String
  feedbackMessage : Option String
deriving BEq, Repr

/-- Model of `validateActions` — validate a batch, collecting all errors. -/
def validateActions (actions : JValue) : IValidationResult :=
  match actions with
  | .arr acts =>
    let allErrors := ((enumFrom 0 acts).map (fun p => validateAction p.2 p.1)).flatten
    if allErrors.isEmpty then
      { valid := true, errors := [], feedbackMessage := none }
    else
      { valid := false
        errors := allErrors
        feedbackMessage := some (String.intercalate "\n"
          (["[Action Validation Error]", ""] ++ allErrors ++
           ["", "Please correct the action format and resend."])) }
  | _ =>
    { valid := false
      errors := ["Actions must be an array"]
      feedbackMessage := some
        "[Action Validation Error]\n\nActions must be an array.\n\nPlease correct the format and resend." }

/-- The claim's misspelled action, in the wire vocabulary of the code
(`type` discriminant, `source` content field). -/
def qeuryAction : JValue :=
  .obj [("type", .str "updateCell"), ("qeury", .obj []), ("source", .str "x")]

/-! ## Auto-approval scope store and hierarchy (src/panel, richer variant) -/

/-- The action kinds of the wire protocol. -/
inductive ActionType where
  | getToc
  | getSection
  | getCells
  | getOutput
  | listNotebookFiles
  | getTocFromFile
  | getSectionFromFile
  | getCellsFromFile
  | getOutputFromFile
  | insertCell
  | updateCell
  | deleteCell
  | runCell
  | listHelp
  | help
deriving DecidableEq, Repr

def QUERY_ACTION_TYPES : List ActionType :=
  [.getToc, .getSection, .getCells, .getOutput, .listNotebookFiles,
   .getTocFromFile, .getSectionFromFile, .getCellsFromFile, .getOutputFromFile]

def MUTATE_ACTION_TYPES : List ActionType :=
  [.insertCell, .updateCell, .deleteCell, .runCell]

/-- Model of `QUERY_HIERARCHY` — a coarser approved read kind permits the finer ones:
`getOutput > getCells > getSection > getToc`. -/
def QUERY_HIERARCHY : List (ActionType × List ActionType) :=
  [(.getOutput, [.getCells, .getSection, .getToc]),
   (.getCells, [.getSection, .getToc]),
   (.getSection, [.getToc]),
   (.getToc, [])]

/-- An action as the approval logic sees it: its kind, and its target path
for file-read actions. -/
structure AAction where
  type : ActionType
  path : Option String := none
deriving DecidableEq, Repr

def defaultAAction : AAction := { type := .getToc }

def isQueryAction (a : AAction) : Bool := QUERY_ACTION_TYPES.contains a.type

def isMutateAction (a : AAction) : Bool := MUTATE_ACTION_TYPES.contains a.type

/-- Model of `isQueryAutoApproved` — direct membership, else scan the hierarchy for an
approved coarser kind that permits this one. -/
def isQueryAutoApproved (approvedTypes : List ActionType)
    (actionType : ActionType) : Bool :=
  if approvedTypes.contains actionType then true
  else QUERY_HIERARCHY.any (fun p =>
    approvedTypes.contains p.1 && p.2.contains actionType)

def FILE_QUERY_TYPES : List ActionType :=
  [.listNotebookFiles, .getTocFromFile, .getSectionFromFile, .getCellsFromFile,
   .getOutputFromFile]

def isFileQueryAction (a : AAction) : Bool := FILE_QUERY_TYPES.contains a.type

/-- Model of `getFileQueryTargetPath` — `action.path || ''` for `listNotebookFiles`,
the required `path` field otherwise. -/
def getFileQueryTargetPath (a : AAction) : String := a.path.getD ""

/-- The two independent scope stores: active-notebook path → approved kinds,
and file path → approved kinds. -/
structure ApprovalStores where
  autoApproved : List (String × List ActionType)
  fileAutoApproved : List (String × List ActionType)
deriving DecidableEq, Repr

/-- The bits of `ContextEngine` the approval logic consults. -/
structure EngineContext where
  hasActiveNotebook : Bool
  notebookPath : String
deriving DecidableEq, Repr

def storeGet (store : List (String × List ActionType)) (key : String) :
    Option (List ActionType) :=
  List.lookup key store

/-- Model of `Set.add` — idempotent insertion. -/
def setAdd (types : List ActionType) (t : ActionType) : List ActionType :=
  if types.contains t then types else types ++ [t]

/-- Model of `Map.set` after `get ?? new Set()`: replace the entry in place, or append
a new one. -/
def storeAdd : List (String × List ActionType) → String → ActionType →
    List (String × List ActionType)
  | [], key, t => [(key, setAdd [] t)]
  | (k, types) :: rest, key, t =>
    if k = key then (k, setAdd types t) :: rest
    else (k, types) :: storeAdd rest key t

/-- Model of `addAutoApproval` — record a grant in the file store (keyed by target
path) or the active-notebook store (keyed by the current notebook path). -/
def addAutoApproval (ctx : EngineContext) (stores : ApprovalStores)
    (a : AAction) : ApprovalStores :=
  if isFileQueryAction a then
    { stores with
      fileAutoApproved := storeAdd stores.fileAutoApproved (getFileQueryTargetPath a) a.type }
  else
    { stores with
      autoApproved := storeAdd stores.autoApproved ctx.notebookPath a.type }

/-- Model of `isActionAutoApproved`. -/
def isActionAutoApproved (ctx : EngineContext) (stores : ApprovalStores)
    (a : AAction) : Bool :=
  if isFileQueryAction a then
    match storeGet stores.fileAutoApproved (getFileQueryTargetPath a) with
    | some approved => approved.contains a.type
    | none => false
  else if !ctx.hasActiveNotebook then false
  else
    match storeGet stores.autoApproved ctx.notebookPath with
    | none => false
    | some approved =>
      if isQueryAction a then isQueryAutoApproved approved a.type
      else approved.contains a.type

/-- Empty scope stores, as at session start. -/
def emptyStores : ApprovalStores := { autoApproved := [], fileAutoApproved := [] }

/-- Per-action approval status (richer 5-state vocabulary). -/
inductive ActionStatus where
  | pending
  | approved
  | rejected
  | executed
  | notified
deriving DecidableEq, Repr

/-- The batch auto-approval effect, per message: if at least one action is
still pending and every pending action is individually auto-approvable, mark
every pending action approved; otherwise leave every status untouched.
Statuses are read through `stat` (position-keyed, defaulting to pending) and
the new statuses are returned positionally. -/
def autoApproveStatuses (auto : AAction → Bool) (actions : List AAction)
    (stat : Nat → ActionStatus) : List ActionStatus :=
  let idx := enumFrom 0 actions
  let hasPending := idx.any (fun p => stat p.1 == ActionStatus.pending)
  let allAutoApprovable :=
    idx.all (fun p => !(stat p.1 == ActionStatus.pending) || auto p.2)
  if hasPending && allAutoApprovable then
    idx.map (fun p =>
      if stat p.1 == ActionStatus.pending then ActionStatus.approved else stat p.1)
  else
    idx.map (fun p => stat p.1)

/-- A three-action batch: two auto-approvable reads and one non-approvable
write. -/
def mixedBatch : List AAction :=
  [{ type := .getToc }, { type := .getCells }, { type := .updateCell }]

/-! ## Response parsing and the decode-retry loop
(src/actions/parser.ts `parseRawContent`; `processLLMResponse` of the richer
panel implementation) -/

inductive Role where
  | user
  | assistant
  | system
deriving DecidableEq, Repr

/-- A chat message; `actions` and `generated` are optional as in the source. -/
structure IMessage where
  role : Role
  content : String
  actions : Option (List JValue) := none
  generated : Bool := false
deriving BEq, Repr

/-- The decoded envelope: `messages` and `actions` coerced to (possibly
empty) arrays. -/
structure LLMResponse where
  messages : List JValue
  actions : List JValue
deriving BEq, Repr

inductive ParseResult where
  | ok (response : LLMResponse)
  | warning (code message rawContent : String)
deriving BEq, Repr

def strStartsWith (s pre : String) : Bool := isPrefixList pre.data s.data

def strEndsWith (s suffix : String) : Bool :=
  isPrefixList suffix.data.reverse s.data.reverse

def strDrop (s : String) (n : Nat) : String := String.mk (s.data.drop n)

def strDropRight (s : String) (n : Nat) : String :=
  String.mk (s.data.take (s.data.length - n))

/-- The fence-stripping part of `parseRawContent`: trim, strip one leading
(optionally `json`-tagged) fence marker and one trailing one, trim again. -/
def stripFences (rawContent : String) : String :=
  let content := String.mk (trimWs rawContent.data)
  let content :=
    if strStartsWith content "```json" then strDrop content 7
    else if strStartsWith content "```" then strDrop content 3
    else content
  let content :=
    if strEndsWith content "```" then strDropRight content 3 else content
  String.mk (trimWs content.data)

def getField (v : JValue) (key : String) : Option JValue :=
  match v with
  | .obj fields => lookupField fields key
  | _ => none

/-- Model of `Array.isArray(x) ? x : []`. -/
def coerceArr (v : Option JValue) : List JValue :=
  match v with
  | some (.arr xs) => xs
  | _ => []

/-- Model of `parseRawContent` — `JSON.parse` is the external oracle `jsonParse`
(returning either the decoded value or the thrown error's message). -/
def parseRawContent (jsonParse : String → Except String JValue)
    (rawContent : String) : ParseResult :=
  let content := stripFences rawContent
  match jsonParse content with
  | .ok parsed =>
    .ok { messages := coerceArr (getField parsed "messages")
          actions := coerceArr (getField parsed "actions") }
  | .error e => .warning "invalid_json" e rawContent

/-- JavaScript `String()` coercion, for joining message contents. -/
def jvalueToString : JValue → String
  | .str s => s
  | .num n => toString n
  | .bool b => cond b "true" "false"
  | .null => "null"
  | .arr xs => String.intercalate "," (xs.attach.map (fun x => jvalueToString x.1))
  | .obj _ => "[object Object]"
decreasing_by
  have := List.sizeOf_lt_of_mem x.2
  simp
  omega

/-- JavaScript truthiness of a possibly-absent value (`filter(Boolean)`). -/
def jvalueTruthy : Option JValue → Bool
  | none => false
  | some .null => false
  | some (.bool b) => b
  | some (.num n) => n != 0
  | some (.str s) => !s.isEmpty
  | some (.arr _) => true
  | some (.obj _) => true

/-- Model of `llmResponse.messages.map(m => m.content).filter(Boolean).join('\n\n')`. -/
def assistantContentOf (messages : List JValue) : String :=
  String.intercalate "\n\n"
    (((messages.map (fun m => getField m "content")).filter jvalueTruthy).map
      (fun o => jvalueToString (o.getD .null)))

def sysMessage (sysPrompt : String) : IMessage :=
  { role := .system, content := sysPrompt }

/-- The synthesized correction turn describing a decode error. -/
def formatErrorFeedback (message : String) : IMessage :=
  { role := .user
    content := "[Format Error]\n\nYour response was not valid JSON. You must respond with JSON only, no text before or after.\n\nError: "
      ++ message ++ "\n\nPlease retry with correct JSON format."
    generated := true }

/-- The placeholder assistant turn added while retrying a decode failure. -/
def formatErrorPlaceholder : IMessage :=
  { role := .assistant, content := "(Format error - retrying...)" }

def MAX_RETRIES : Nat := 2

/-- Model of `processLLMResponse` — parse; on decode failure with retry budget left,
append the placeholder assistant turn plus the generated correction turn,
resend (the model collaborator is the oracle `send`) and recurse with
`retryCount + 1`; with the budget exhausted, append the raw text verbatim as
the assistant message with no actions.  On decode success, validate the
action batch, retrying similarly on validation failure, and otherwise append
the assistant message carrying the joined content and the action list. -/
def processLLMResponse (jsonParse : String → Except String JValue)
    (send : List IMessage → String) (sysPrompt : String)
    (rawContent : String) (currentMessages : List IMessage)
    (retryCount : Nat) : List IMessage :=
  match parseRawContent jsonParse rawContent with
  | .warning _ wmsg _ =>
    if h : retryCount < MAX_RETRIES then
      let newMessages :=
        currentMessages ++ [formatErrorPlaceholder, formatErrorFeedback wmsg]
      let nextResponse := send (sysMessage sysPrompt :: newMessages)
      processLLMResponse jsonParse send sysPrompt nextResponse newMessages
        (retryCount + 1)
    else
      currentMessages ++ [{ role := .assistant, content := rawContent }]
  | .ok llmResponse =>
    let validation := validateActions (.arr llmResponse.actions)
    let assistantContent := assistantContentOf llmResponse.messages
    if h : validation.valid = false ∧ retryCount < MAX_RETRIES then
      let assistantMessage : IMessage :=
        { role := .assistant
          content :=
            if assistantContent = "" then "(Action format error - retrying...)"
            else assistantContent }
      let feedbackMessage : IMessage :=
        { role := .user
          content := validation.feedbackMessage.getD ""
          generated := true }
      let newMessages := currentMessages ++ [assistantMessage, feedbackMessage]
      let nextResponse := send (sysMessage sysPrompt :: newMessages)
      processLLMResponse jsonParse send sysPrompt nextResponse newMessages
        (retryCount + 1)
    else
      currentMessages ++
        [{ role := .assistant
           content := if assistantContent = "" then "(no message)" else assistantContent
           actions := some llmResponse.actions }]
termination_by MAX_RETRIES - retryCount
decreasing_by
  · simp only [MAX_RETRIES] at *
    omega
  · simp only [MAX_RETRIES] at *
    omega

/-- A parse oracle that always fails, and a model oracle returning a fixed
reply, for the concrete three-failure run. -/
def jpAlwaysFail : String → Except String JValue :=
  fun _ => .error "Unexpected token"

def sendFixed : List IMessage → String := fun _ => "still not JSON"

lemma xor_mod_two_pow_32 (a c : Nat) (hc : c < 4294967296) :
    (a % 4294967296) ^^^ c = ((a ^^^ c) % 4294967296) := by
  have h32 : (4294967296 : Nat) = 2 ^ 32 := by norm_num
  apply Nat.eq_of_testBit_eq
  intro i
  rw [h32, Nat.testBit_mod_two_pow, Nat.testBit_xor, Nat.testBit_xor,
    Nat.testBit_mod_two_pow]
  by_cases hi : i < 32
  · simp [hi]
  · have : c.testBit i = false := by
      apply Nat.testBit_lt_two_pow
      calc c < 2 ^ 32 := by omega
        _ ≤ 2 ^ i := Nat.pow_le_pow_right (by norm_num) (by omega)
    simp [hi, this]

lemma hashStep_eq_specStep (h c : Nat) (hc : c < 4294967296) :
    hashStep h c = ((33 * h) ^^^ c) % 4294967296 := by
  unfold hashStep
  rw [Nat.mul_comm h 33]
  exact xor_mod_two_pow_32 (33 * h) c hc

lemma foldl_hashStep_lt (l : List Nat) (h : Nat) (hh : h < 4294967296)
    (hl : ∀ c ∈ l, c < 4294967296) : l.foldl hashStep h < 4294967296 := by
  induction l generalizing h with
  | nil => simpa using hh
  | cons c rest ih =>
    simp only [List.foldl_cons]
    apply ih
    · have hc : c < 4294967296 := hl c (by simp)
      have : hashStep h c < 4294967296 := by
        unfold hashStep
        have h1 : (h * 33) % 4294967296 < 4294967296 := Nat.mod_lt _ (by norm_num)
        have h32 : (4294967296 : Nat) = 2 ^ 32 := by norm_num
        rw [h32] at h1 hc ⊢
        exact Nat.xor_lt_two_pow h1 hc
      exact this
    · intro x hx
      exact hl x (by simp [hx])

lemma foldl_hashStep_eq_spec (l : List Nat) (h : Nat) (hh : h < 4294967296)
    (hl : ∀ c ∈ l, c < 4294967296) :
    l.foldl hashStep h =
      l.foldl (fun h c => ((33 * h) ^^^ c) % 4294967296) h % 4294967296 := by
  induction l generalizing h with
  | nil => simp [Nat.mod_eq_of_lt hh]
  | cons c rest ih =>
    simp only [List.foldl_cons]
    rw [hashStep_eq_specStep h c (hl c (by simp))]
    apply ih
    · exact Nat.mod_lt _ (by norm_num)
    · intro x hx
      exact hl x (by simp [hx])

lemma foldl_specStep_lt (l : List Nat) (h : Nat) (hh : h < 4294967296) :
    l.foldl (fun h c => ((33 * h) ^^^ c) % 4294967296) h < 4294967296 := by
  induction l generalizing h with
  | nil => simpa using hh
  | cons c rest ih =>
    simp only [List.foldl_cons]
    exact ih _ (Nat.mod_lt _ (by norm_num))

lemma codeUnits_lt (s : String) : ∀ c ∈ codeUnits s, c < 4294967296 := by
  intro c hc
  simp only [codeUnits, List.mem_map] at hc
  obtain ⟨ch, _, rfl⟩ := hc
  exact Nat.lt_of_lt_of_le ch.val.toNat_lt (by norm_num)

lemma codeUnits_append_nul (type source : String) :
    codeUnits (type ++ "\x00" ++ source) =
      codeUnits type ++ [0] ++ codeUnits source := by
  simp [codeUnits, String.data_append]

/-- **C2.** For every kind and content string, `computeCellHash` equals the
djb2-variant reference definition written from the spec (seed 5381,
`(33 * h) XOR c` folded to an unsigned 32-bit value per code unit of
`kind + NUL + content`, lowercase hexadecimal rendering); in particular the
function is deterministic, and the regression pin for `("code","print(1)")`
holds. -/
theorem computeCellHash_eq_fingerprintSpec :
    (∀ kind content, computeCellHash kind content = fingerprintSpec kind content)
    ∧ (∀ kind content, computeCellHash kind content = computeCellHash kind content)
    ∧ computeCellHash "code" "print(1)" = "2f003ba9" := by
  refine ⟨?_, ?_, by decide⟩
  · intro kind content
    show toHexString (((codeUnits (kind ++ "\x00" ++ content)).foldl hashStep 5381) % 4294967296) = _
    rw [codeUnits_append_nul]
    have hlt : ∀ c ∈ codeUnits kind ++ [0] ++ codeUnits content, c < 4294967296 := by
      intro c hc
      simp only [List.mem_append] at hc
      rcases hc with (hc | hc) | hc
      · exact codeUnits_lt kind c hc
      · simp at hc; omega
      · exact codeUnits_lt content c hc
    rw [foldl_hashStep_eq_spec _ 5381 (by norm_num) hlt,
      Nat.mod_mod_of_dvd _ (dvd_refl 4294967296),
      Nat.mod_eq_of_lt (foldl_specStep_lt _ 5381 (by norm_num))]
    rfl
  · intro kind content
    rfl

lemma findCellIndexAux_lt (rt : String → String → Bool) (q : ICellQuery)
    (aci : Nat) (sel : List Nat) :
    ∀ (cells : List Cell) (i j : Nat),
      findCellIndexAux rt q aci sel i cells = some j → j < i + cells.length := by
  intro cells
  induction cells with
  | nil => intro i j h; simp [findCellIndexAux] at h
  | cons c rest ih =>
    intro i j h
    simp only [findCellIndexAux] at h
    split at h
    · cases h
      simp only [List.length_cons]
      omega
    · have := ih (i + 1) j h
      simp only [List.length_cons]
      omega

lemma findCellIndex_lt (rt : String → String → Bool) (st : NotebookState)
    (q : ICellQuery) (i : Nat) (h : findCellIndex rt st q = some i) :
    i < st.cells.length := by
  have := findCellIndexAux_lt rt q st.activeCellIndex st.selectedIndices st.cells 0 i h
  omega

/-- **C1.** For any `updateCell` or `deleteCell` whose expected-fingerprint
argument differs from the fingerprint recomputed from the target cell's
current (kind, content), the operation fails with the distinct
`hashMismatch` ("Hash mismatch") error and the notebook state — in
particular the cell's content — is left unchanged; when the fingerprints are
equal, `updateCell` replaces the cell's source with the new content. -/
theorem updateCell_deleteCell_fingerprint_check
    (rt : String → String → Bool) (st : NotebookState) (q : ICellQuery)
    (i : Nat) (src h : String) (hfind : findCellIndex rt st q = some i) :
    (computeCellHash (cellAt st i).type.toStr (cellAt st i).source ≠ h →
      updateCell rt st q src h =
        (st, .error (.hashMismatch h
          (computeCellHash (cellAt st i).type.toStr (cellAt st i).source)))
      ∧ deleteCell rt st q h =
        (st, .error (.hashMismatch h
          (computeCellHash (cellAt st i).type.toStr (cellAt st i).source))))
    ∧ (computeCellHash (cellAt st i).type.toStr (cellAt st i).source = h →
      updateCell rt st q src h =
        ({ cells := st.cells.set i { cellAt st i with source := src }
           activeCellIndex := i
           selectedIndices := st.selectedIndices },
         .ok (cellToData { cellAt st i with source := src } i i st.selectedIndices))) := by
  constructor
  · intro hne
    simp only [cellAt] at hne
    constructor
    · simp only [updateCell, hfind, cellAt]
      rw [if_pos hne]
    · simp only [deleteCell, hfind, cellAt]
      rw [if_pos hne]
  · intro heq
    simp only [cellAt] at heq
    simp only [updateCell, hfind, cellAt]
    rw [if_neg (fun hne => hne heq)]

theorem updateCell_deleteCell_fingerprint_check_witness :
    (updateCell regexFalse oneCellDoc (.start 0) "new" "0" =
      (oneCellDoc, .error (.hashMismatch "0"
        (computeCellHash (cellAt oneCellDoc 0).type.toStr (cellAt oneCellDoc 0).source)))
      ∧ deleteCell regexFalse oneCellDoc (.start 0) "0" =
      (oneCellDoc, .error (.hashMismatch "0"
        (computeCellHash (cellAt oneCellDoc 0).type.toStr (cellAt oneCellDoc 0).source))))
    ∧ updateCell regexFalse oneCellDoc (.start 0) "new" "2f003ba9" =
      ({ cells := oneCellDoc.cells.set 0 { cellAt oneCellDoc 0 with source := "new" }
         activeCellIndex := 0
         selectedIndices := oneCellDoc.selectedIndices },
       .ok (cellToData { cellAt oneCellDoc 0 with source := "new" } 0 0
         oneCellDoc.selectedIndices)) :=
  ⟨(updateCell_deleteCell_fingerprint_check regexFalse oneCellDoc (.start 0) 0
      "new" "0" (by decide)).1 (by decide),
   (updateCell_deleteCell_fingerprint_check regexFalse oneCellDoc (.start 0) 0
      "new" "2f003ba9" (by decide)).2 (by decide)⟩

lemma collectSection_eq_takeWhile (aci : Nat) (sel : List Nat) (level : Nat)
    (l : List (Nat × Cell)) :
    collectSection aci sel level l =
      (l.takeWhile (fun p => !stopsAtLevel level p.2)).map
        (fun p => cellToData p.2 p.1 aci sel) := by
  induction l with
  | nil => rfl
  | cons p rest ih =>
    obtain ⟨i, c⟩ := p
    simp only [collectSection, List.takeWhile]
    cases hph : parseHeading c.source with
    | none => simp [stopsAtLevel, hph, ih]
    | some pr =>
      obtain ⟨lv, tx⟩ := pr
      by_cases hle : lv ≤ level
      · simp [stopsAtLevel, hph, hle]
      · simp [stopsAtLevel, hph, hle, ih]

/-- **C6.** `getSection` resolves the query to a start cell; if that cell's
source contains no markdown heading, the result is exactly that single cell;
otherwise it is the start cell followed by every subsequent cell in order, up
to but excluding the first later cell whose own heading level is ≤ the start
heading's level (document end otherwise).  On `[H1, code, H2, code, H1]`,
anchoring at index 0 yields indices `[0,1,2,3]` and anchoring at index 2
yields `[2,3]`. -/
theorem getSection_spec :
    (∀ (rt : String → String → Bool) (st : NotebookState) (q : ICellQuery) (i : Nat),
      findCellIndex rt st q = some i →
      (parseHeading (cellAt st i).source = none →
        getSection rt st q =
          .ok [cellToData (cellAt st i) i st.activeCellIndex st.selectedIndices])
      ∧ (∀ level text, parseHeading (cellAt st i).source = some (level, text) →
        getSection rt st q =
          .ok (cellToData (cellAt st i) i st.activeCellIndex st.selectedIndices ::
            (((enumFrom 0 st.cells).drop (i + 1)).takeWhile
                (fun p => !stopsAtLevel level p.2)).map
              (fun p => cellToData p.2 p.1 st.activeCellIndex st.selectedIndices))))
    ∧ resultIndices (getSection regexFalse fiveCellDoc (.start 0)) = [0, 1, 2, 3]
    ∧ resultIndices (getSection regexFalse fiveCellDoc (.start 2)) = [2, 3] := by
  refine ⟨?_, by decide, by decide⟩
  intro rt st q i hfind
  constructor
  · intro hph
    simp only [cellAt] at hph
    simp only [getSection, hfind, cellAt, hph]
  · intro level text hph
    simp only [cellAt] at hph
    simp only [getSection, hfind, cellAt, hph]
    rw [collectSection_eq_takeWhile]

theorem getSection_spec_witness :
    getSection regexFalse fiveCellDoc (.start 1) =
      .ok [cellToData (cellAt fiveCellDoc 1) 1 fiveCellDoc.activeCellIndex
        fiveCellDoc.selectedIndices]
    ∧ getSection regexFalse fiveCellDoc (.start 2) =
      .ok (cellToData (cellAt fiveCellDoc 2) 2 fiveCellDoc.activeCellIndex
          fiveCellDoc.selectedIndices ::
        (((enumFrom 0 fiveCellDoc.cells).drop 3).takeWhile
            (fun p => !stopsAtLevel 2 p.2)).map
          (fun p => cellToData p.2 p.1 fiveCellDoc.activeCellIndex
            fiveCellDoc.selectedIndices)) :=
  ⟨(getSection_spec.1 regexFalse fiveCellDoc (.start 1) 1 (by decide)).1 (by decide),
   (getSection_spec.1 regexFalse fiveCellDoc (.start 2) 2 (by decide)).2 2 "B"
     (by decide)⟩

lemma enumFrom_drop {α : Type} (n : Nat) (l : List α) :
    ∀ i, (enumFrom n l).drop i = enumFrom (n + i) (l.drop i) := by
  induction l generalizing n with
  | nil => intro i; simp [enumFrom]
  | cons a rest ih =>
    intro i
    cases i with
    | zero => simp [enumFrom]
    | succ m =>
      simp only [enumFrom, List.drop_succ_cons]
      rw [ih (n + 1) m]
      congr 1
      omega

lemma enumFrom_take {α : Type} (n : Nat) (l : List α) :
    ∀ k, (enumFrom n l).take k = enumFrom n (l.take k) := by
  induction l generalizing n with
  | nil => intro k; simp [enumFrom]
  | cons a rest ih =>
    intro k
    cases k with
    | zero => simp [enumFrom]
    | succ m => simp only [enumFrom, List.take_succ_cons]; rw [ih (n + 1) m]

lemma enumFrom_map_getD {α β : Type} (f : Nat × α → β) (d : α) :
    ∀ (l : List α) (n : Nat),
      (enumFrom n l).map f =
        (List.range' n l.length).map (fun j => f (j, l.getD (j - n) d)) := by
  intro l
  induction l with
  | nil => intro n; simp [enumFrom]
  | cons a rest ih =>
    intro n
    simp only [enumFrom, List.map_cons, List.length_cons, List.range',
      Nat.sub_self, List.getD_cons_zero]
    rw [ih (n + 1)]
    congr 1
    apply List.map_congr_left
    intro j hj
    have hji : n + 1 ≤ j := (List.mem_range'_1.mp hj).1
    have h1 : j - n = (j - (n + 1)) + 1 := by omega
    rw [h1, List.getD_cons_succ]

/-- **C9 counterexample.** The claim states that a given count of `0` yields
an empty list; on a two-cell document, `getCells` (engine `queryCells`) with
`count = 0` in fact returns the cells from the start index through the end of
the document, because `0` is falsy in the JavaScript conditional
`count ? Math.min(startIndex + count, length) : length`. -/
theorem queryCells_count_zero_counterexample :
    resultIndices (queryCells regexFalse twoCellDoc (.start 0) (some 0)) = [0, 1]
    ∧ [0, 1] ≠ ([] : List Nat) := by
  constructor
  · decide
  · decide

/-- **C9 (amended).** For every document and query resolving to a start
index, `queryCells` with a nonzero count returns exactly the cells at indices
`start` to `min(start + count, length)` exclusive, and without a count
returns the cells from `start` through the end; a count of `0` is falsy in
JavaScript and is treated exactly like an absent count (whole tail, not the
empty list). -/
theorem queryCells_spec (rt : String → String → Bool) (st : NotebookState)
    (q : ICellQuery) (i : Nat) (hfind : findCellIndex rt st q = some i) :
    (∀ c : Nat, c ≠ 0 → queryCells rt st q (some c) =
      .ok ((List.range' i (min (i + c) st.cells.length - i)).map
        (fun j => cellToData (cellAt st j) j st.activeCellIndex st.selectedIndices)))
    ∧ (queryCells rt st q none =
      .ok ((List.range' i (st.cells.length - i)).map
        (fun j => cellToData (cellAt st j) j st.activeCellIndex st.selectedIndices)))
    ∧ queryCells rt st q (some 0) = queryCells rt st q none := by
  have key : ∀ e : Nat, e ≤ st.cells.length →
      (((enumFrom 0 st.cells).drop i).take (e - i)).map
          (fun p => cellToData p.2 p.1 st.activeCellIndex st.selectedIndices) =
        (List.range' i (e - i)).map
          (fun j => cellToData (cellAt st j) j st.activeCellIndex st.selectedIndices) := by
    intro e he
    rw [enumFrom_drop, enumFrom_take, enumFrom_map_getD _ defaultCell]
    have hlen : ((st.cells.drop i).take (e - i)).length = e - i := by
      rw [List.length_take, List.length_drop]
      omega
    rw [hlen]
    simp only [Nat.zero_add]
    apply List.map_congr_left
    intro j hj
    have hji : i ≤ j ∧ j < i + (e - i) := List.mem_range'_1.mp hj
    refine congrArg (fun z => cellToData z j st.activeCellIndex st.selectedIndices) ?_
    rw [List.getD_eq_getElem?_getD, List.getElem?_take, if_pos (by omega),
      List.getElem?_drop]
    have hij : i + (j - i) = j := by omega
    rw [hij, cellAt, List.getD_eq_getElem?_getD]
  refine ⟨?_, ?_, ?_⟩
  · intro c hc
    simp only [queryCells, hfind]
    rw [if_neg hc]
    exact congrArg Except.ok (key (min (i + c) st.cells.length) (by omega))
  · simp only [queryCells, hfind]
    exact congrArg Except.ok (key st.cells.length (by omega))
  · simp only [queryCells, hfind]
    simp

theorem queryCells_spec_witness :
    queryCells regexFalse fiveCellDoc (.start 1) (some 2) =
      .ok ((List.range' 1 (min (1 + 2) fiveCellDoc.cells.length - 1)).map
        (fun j => cellToData (cellAt fiveCellDoc j) j fiveCellDoc.activeCellIndex
          fiveCellDoc.selectedIndices))
    ∧ queryCells regexFalse fiveCellDoc (.start 1) none =
      .ok ((List.range' 1 (fiveCellDoc.cells.length - 1)).map
        (fun j => cellToData (cellAt fiveCellDoc j) j fiveCellDoc.activeCellIndex
          fiveCellDoc.selectedIndices)) :=
  ⟨(queryCells_spec regexFalse fiveCellDoc (.start 1) 1 (by decide)).1 2 (by decide),
   (queryCells_spec regexFalse fiveCellDoc (.start 1) 1 (by decide)).2.1⟩

namespace Redaction

lemma mem_foldl_seenInsert (ps : List String) :
    ∀ (acc : List String) (m : String),
      m ∈ ps.foldl seenInsert acc ↔ m ∈ acc ∨ m ∈ ps := by
  induction ps with
  | nil => intro acc m; simp
  | cons s rest ih =>
    intro acc m
    simp only [List.foldl_cons]
    rw [ih]
    have hseen : m ∈ seenInsert acc s ↔ m ∈ acc ∨ m = s := by
      unfold seenInsert
      by_cases hc : acc.contains s
      · rw [if_pos hc]
        have hs : s ∈ acc := by
          rwa [List.elem_iff] at hc
        constructor
        · intro h; exact Or.inl h
        · rintro (h | rfl)
          · exact h
          · exact hs
      · rw [if_neg hc]
        simp
    rw [hseen]
    simp only [List.mem_cons]
    tauto

lemma mem_distinctList (ps : List String) (m : String) :
    m ∈ distinctList ps ↔ m ∈ ps := by
  unfold distinctList
  rw [mem_foldl_seenInsert]
  simp

lemma distinctList_append_singleton (ps : List String) (m : String) :
    distinctList (ps ++ [m]) = seenInsert (distinctList ps) m := by
  simp [distinctList, List.foldl_append]

lemma length_distinctList_append_of_mem (ps : List String) (m : String)
    (h : m ∈ ps) :
    (distinctList (ps ++ [m])).length = (distinctList ps).length := by
  rw [distinctList_append_singleton]
  unfold seenInsert
  rw [if_pos (by rw [List.elem_iff]; exact (mem_distinctList ps m).mpr h)]

lemma length_distinctList_append_of_not_mem (ps : List String) (m : String)
    (h : m ∉ ps) :
    (distinctList (ps ++ [m])).length = (distinctList ps).length + 1 := by
  rw [distinctList_append_singleton]
  unfold seenInsert
  rw [if_neg (by
    rw [List.elem_iff, mem_distinctList]
    exact h)]
  simp

lemma takeWhile_neq_append_of_mem (m : String) :
    ∀ (ps ms : List String), m ∈ ps →
      (ps ++ ms).takeWhile (fun x => x != m) = ps.takeWhile (fun x => x != m) := by
  intro ps
  induction ps with
  | nil => intro ms h; cases h
  | cons s rest ih =>
    intro ms h
    simp only [List.cons_append, List.takeWhile]
    by_cases hs : s = m
    · subst hs
      simp
    · have hb : (s != m) = true := by
        simp [bne, hs]
      rw [hb]
      simp only [cond_true]
      have hm : m ∈ rest := by
        rcases List.mem_cons.mp h with h1 | h1
        · exact absurd h1.symm hs
        · exact h1
      rw [show rest.append ms = rest ++ ms from rfl, ih ms hm]

lemma takeWhile_neq_append_of_not_mem (m : String) :
    ∀ (ps ms : List String), m ∉ ps →
      (ps ++ ms).takeWhile (fun x => x != m) =
        ps ++ ms.takeWhile (fun x => x != m) := by
  intro ps
  induction ps with
  | nil => intro ms h; simp
  | cons s rest ih =>
    intro ms h
    have hs : s ≠ m := fun hc => h (by simp [hc])
    simp only [List.cons_append, List.takeWhile]
    have hb : (s != m) = true := by simp [bne, hs]
    rw [hb]
    simp only [cond_true]
    rw [show rest.append ms = rest ++ ms from rfl, ih ms (fun hc => h (by simp [hc]))]

lemma assignedNumber_of_not_mem (ps : List String) (m : String) (h : m ∉ ps) :
    assignedNumber ps m = (distinctList ps).length + 1 := by
  unfold assignedNumber
  have := takeWhile_neq_append_of_not_mem m ps [] h
  simp only [List.append_nil, List.takeWhile_nil] at this
  rw [this]

lemma assignedNumber_append_of_mem (ps ms : List String) (m : String)
    (h : m ∈ ps) :
    assignedNumber (ps ++ ms) m = assignedNumber ps m := by
  unfold assignedNumber
  rw [takeWhile_neq_append_of_mem m ps ms h]

lemma assignedNumber_append_self_of_not_mem (ps : List String) (m : String)
    (h : m ∉ ps) :
    assignedNumber (ps ++ [m]) m = (distinctList ps).length + 1 := by
  unfold assignedNumber
  rw [takeWhile_neq_append_of_not_mem m ps [m] h]
  simp only [List.takeWhile]
  have hb : (m != m) = false := by simp
  rw [hb]
  simp

lemma lookup_append (a : String) (l1 l2 : List (String × Nat)) :
    List.lookup a (l1 ++ l2) =
      match List.lookup a l1 with
      | some v => some v
      | none => List.lookup a l2 := by
  induction l1 with
  | nil => simp
  | cons p rest ih =>
    obtain ⟨k, v⟩ := p
    simp only [List.cons_append, List.lookup]
    by_cases hk : a == k
    · rw [hk]
    · simp only [Bool.not_eq_true] at hk
      rw [hk]
      exact ih

lemma replacePieces_renderFrom (pieces : List Piece) :
    ∀ (ps : List String) (f : Filter),
      f.counter = (distinctList ps).length →
      (∀ m, List.lookup m f.valueMap =
        if m ∈ ps then some (assignedNumber ps m) else none) →
      (f.replacePieces pieces).2 = renderFrom f.label ps pieces := by
  induction pieces with
  | nil => intro ps f hc hl; rfl
  | cons p rest ih =>
    intro ps f hc hl
    cases p with
    | lit s =>
      simp only [Filter.replacePieces, renderFrom]
      rw [ih ps f hc hl]
    | hit m =>
      by_cases hmem : m ∈ ps
      · have hlm : List.lookup m f.valueMap = some (assignedNumber ps m) := by
          rw [hl m, if_pos hmem]
        simp only [Filter.replacePieces, renderFrom, hlm]
        have hc' : f.counter = (distinctList (ps ++ [m])).length := by
          rw [length_distinctList_append_of_mem ps m hmem]
          exact hc
        have hl' : ∀ m', List.lookup m' f.valueMap =
            if m' ∈ ps ++ [m] then some (assignedNumber (ps ++ [m]) m') else none := by
          intro m'
          rw [hl m']
          by_cases hm' : m' ∈ ps
          · rw [if_pos hm', if_pos (by simp [hm']),
              assignedNumber_append_of_mem ps [m] m' hm']
          · have : m' ∉ ps ++ [m] := by
              simp only [List.mem_append, List.mem_singleton]
              rintro (h1 | rfl)
              · exact hm' h1
              · exact hm' hmem
            rw [if_neg hm', if_neg this]
        rw [ih (ps ++ [m]) f hc' hl']
      · have hlm : List.lookup m f.valueMap = none := by
          rw [hl m, if_neg hmem]
        simp only [Filter.replacePieces, renderFrom, hlm]
        have hnum : f.counter + 1 = assignedNumber ps m := by
          rw [assignedNumber_of_not_mem ps m hmem, hc]
        have hc' : f.counter + 1 = (distinctList (ps ++ [m])).length := by
          rw [length_distinctList_append_of_not_mem ps m hmem, hc]
        have hl' : ∀ m', List.lookup m' (f.valueMap ++ [(m, f.counter + 1)]) =
            if m' ∈ ps ++ [m] then some (assignedNumber (ps ++ [m]) m') else none := by
          intro m'
          rw [lookup_append, hl m']
          by_cases hm' : m' ∈ ps
          · rw [if_pos hm']
            rw [if_pos (by simp [hm']),
              assignedNumber_append_of_mem ps [m] m' hm']
          · rw [if_neg hm']
            by_cases hmm : m' = m
            · subst hmm
              simp only [List.lookup, beq_self_eq_true]
              rw [if_pos (by simp)]
              rw [assignedNumber_append_self_of_not_mem ps m' hmem, hc]
            · have hb : (m' == m) = false := by
                simp [hmm]
              simp only [List.lookup, hb]
              rw [if_neg (by
                simp only [List.mem_append, List.mem_singleton]
                rintro (h1 | rfl)
                · exact hm' h1
                · exact hmm rfl)]
        have := ih (ps ++ [m])
          { f with counter := f.counter + 1, valueMap := f.valueMap ++ [(m, f.counter + 1)] }
          hc' hl'
        simp only at this
        rw [this, hnum]

/-- **C8.** Within one `applyFilters` call, each rule instance starts its
counter at 1 and assigns each distinct matched substring the next counter
value the first time it is seen, while every repeated occurrence of an
identical matched substring reuses the previously assigned number; and since
each call constructs fresh rule instances, numbering restarts at 1 on the
next independent call (concrete pipeline runs included). -/
theorem applyFilters_first_seen_numbering :
    (∀ (spec : IFilter) (pieces : List Piece),
      ((mkFilter spec).replacePieces pieces).2 = renderFrom spec.label [] pieces)
    ∧ (∀ m, assignedNumber [] m = 1)
    ∧ (∀ ps m, m ∉ ps → assignedNumber ps m = (distinctList ps).length + 1)
    ∧ (∀ ps ms m, m ∈ ps → assignedNumber (ps ++ ms) m = assignedNumber ps m)
    ∧ applyFilters ipDecomp [ipRule] "a 10.0.0.1 b 10.0.0.1 c 10.0.0.2" =
        "a IP_1 b IP_1 c IP_2"
    ∧ applyFilters ipDecomp [ipRule] "x 10.9.9.9" = "x IP_1" := by
  refine ⟨?_, ?_, ?_, ?_, by decide, by decide⟩
  · intro spec pieces
    exact replacePieces_renderFrom pieces [] (mkFilter spec) rfl (fun m => rfl)
  · intro m
    rfl
  · intro ps m h
    exact assignedNumber_of_not_mem ps m h
  · intro ps ms m h
    exact assignedNumber_append_of_mem ps ms m h

theorem applyFilters_first_seen_numbering_witness :
    assignedNumber ["10.0.0.1"] "10.0.0.2" =
      (distinctList ["10.0.0.1"]).length + 1
    ∧ assignedNumber (["10.0.0.1"] ++ ["10.0.0.1"]) "10.0.0.1" =
      assignedNumber ["10.0.0.1"] "10.0.0.1" :=
  ⟨applyFilters_first_seen_numbering.2.2.1 ["10.0.0.1"] "10.0.0.2" (by decide),
   applyFilters_first_seen_numbering.2.2.2.1 ["10.0.0.1"] ["10.0.0.1"]
     "10.0.0.1" (by decide)⟩

end Redaction

/-- **C7 counterexample.**  The claim asserts that validating the action with
the misspelled field `qeury` yields an error suggesting `query` by name.  In
fact the fuzzy match — case-insensitive equality or substring containment in
either direction — cannot relate `qeury` to `query` (a transposition is
neither), so `findSimilarField` returns nothing and the unknown-field error
carries no suggestion at all. -/
theorem validateAction_qeury_counterexample :
    findSimilarField "qeury" ["type", "query", "source", "_hash"] = none
    ∧ validateAction qeuryAction 0 =
      ["Action 0 (updateCell): Missing required field \"query\"",
       "Action 0 (updateCell): Missing required field \"_hash\"",
       "Action 0 (updateCell): Unknown field \"qeury\". Valid fields: type, query, source, _hash"]
    ∧ (validateAction qeuryAction 0).all
        (fun e => !strIncludes e "did you mean") = true :=
  ⟨by decide, by decide, by decide⟩

/-- **C7 (amended).**  Validating
`{type:"updateCell", qeury:{...}, source:"x"}` yields an error flagging the
missing required field `query` (and the missing `_hash`) and an unknown-field
error for `qeury` that lists the valid fields but carries no suggestion,
because the fuzzy match (case-insensitive equality, or substring containment
in either direction) does not relate `qeury` to `query`; a misspelling the
fuzzy match does cover, such as `Query`, is suggested by name. -/
theorem validateAction_qeury_amended :
    (validateAction qeuryAction 0).contains
      "Action 0 (updateCell): Missing required field \"query\"" = true
    ∧ (validateAction qeuryAction 0).contains
      "Action 0 (updateCell): Unknown field \"qeury\". Valid fields: type, query, source, _hash" = true
    ∧ findSimilarField "Query" ["type", "query", "source", "_hash"] = some "query"
    ∧ validateAction
        (.obj [("type", .str "updateCell"), ("Query", .obj []),
               ("source", .str "x")]) 1 =
      ["Action 1 (updateCell): Missing required field \"query\"",
       "Action 1 (updateCell): Missing required field \"_hash\"",
       "Action 1 (updateCell): Unknown field \"Query\" (did you mean \"query\"?)"] :=
  ⟨by decide, by decide, by decide, by decide⟩

/-- **C10.**  Action validation inspects only the presence of fields, never
the types of their values: any object with a known string `type`, all
required fields present and non-`null`, and no fields outside the schema, is
accepted with zero errors — in particular a required `query` holding a
number or a plain string passes exactly as an object-shaped query does, and
such a singleton batch validates as a whole. -/
theorem validateAction_presence_only :
    (∀ (fields : List (String × JValue)) (type : String)
       (required optional : List String) (index : Nat),
      lookupField fields "type" = some (.str type) →
      type ≠ "" →
      List.lookup type ACTION_SCHEMAS = some (required, optional) →
      (∀ f ∈ required, ∃ v, lookupField fields f = some v ∧ v ≠ .null) →
      (∀ k ∈ fields.map (fun p => p.1), k ∈ "type" :: (required ++ optional)) →
      validateAction (.obj fields) index = [])
    ∧ validateAction (.obj [("type", .str "getCells"), ("query", .num 5)]) 0 = []
    ∧ validateAction (.obj [("type", .str "getCells"), ("query", .str "c0")]) 0 = []
    ∧ validateAction
        (.obj [("type", .str "getCells"),
               ("query", .obj [("start", .num 0)])]) 0 = []
    ∧ (validateActions
        (.arr [.obj [("type", .str "getCells"), ("query", .num 5)]])).valid = true := by
  refine ⟨?_, by decide, by decide, by decide, by decide⟩
  intro fields type required optional index htype hne hschema hreq hkeys
  simp only [validateAction, htype, hschema]
  rw [if_neg hne]
  have hmiss : required.filter (fun field =>
      match lookupField fields field with
      | none => true
      | some .null => true
      | some _ => false) = [] := by
    rw [List.filter_eq_nil_iff]
    intro f hf
    obtain ⟨v, hv, hvn⟩ := hreq f hf
    rw [hv]
    cases v with
    | null => exact absurd rfl hvn
    | bool b => simp
    | num n => simp
    | str s => simp
    | arr l => simp
    | obj l => simp
  have hunk : (fields.map (fun p => p.1)).filter
      (fun key => !("type" :: (required ++ optional)).contains key) = [] := by
    rw [List.filter_eq_nil_iff]
    intro k hk
    have hmem := hkeys k hk
    have hc : ("type" :: (required ++ optional)).contains k = true := by
      rw [List.elem_iff]
      exact hmem
    intro hfalse
    rw [hc] at hfalse
    exact Bool.noConfusion hfalse
  rw [hmiss, hunk]
  simp

theorem validateAction_presence_only_witness :
    validateAction (.obj [("type", .str "runCell"), ("query", .num 3)]) 2 = [] :=
  validateAction_presence_only.1
    [("type", .str "runCell"), ("query", .num 3)] "runCell" ["query"] [] 2
    rfl (by decide) rfl
    (fun f hf => by
      simp only [List.mem_singleton] at hf
      subst hf
      exact ⟨.num 3, rfl, fun h => JValue.noConfusion h⟩)
    (by decide)

lemma storeGet_storeAdd_self (store : List (String × List ActionType))
    (key : String) (t : ActionType) :
    storeGet (storeAdd store key t) key =
      some (setAdd ((storeGet store key).getD []) t) := by
  induction store with
  | nil => simp [storeAdd, storeGet, List.lookup]
  | cons p rest ih =>
    obtain ⟨k, types⟩ := p
    by_cases hk : k = key
    · subst hk
      simp [storeAdd, storeGet, List.lookup]
    · have hb : (key == k) = false := by
        rw [beq_eq_false_iff_ne]
        exact fun h => hk h.symm
      simp only [storeAdd, if_neg hk, storeGet, List.lookup, hb]
      exact ih

lemma setAdd_contains_self (l : List ActionType) (t : ActionType) :
    (setAdd l t).contains t = true := by
  unfold setAdd
  by_cases hc : l.contains t = true
  · rw [if_pos hc]
    exact hc
  · rw [if_neg hc, List.elem_iff]
    simp

lemma setAdd_contains_other (l : List ActionType) (t t' : ActionType)
    (hne : t' ≠ t) : (setAdd l t).contains t' = l.contains t' := by
  unfold setAdd
  by_cases hc : l.contains t = true
  · rw [if_pos hc]
  · rw [if_neg hc]
    cases hc' : l.contains t' with
    | true =>
      rw [List.elem_iff]
      rw [List.elem_iff] at hc'
      simp [hc']
    | false =>
      cases hall : (l ++ [t]).contains t' with
      | false => rfl
      | true =>
        rw [List.elem_iff] at hall
        rcases List.mem_append.mp hall with h1 | h1
        · rw [← List.elem_iff] at h1
          have h2 : l.contains t' = true := h1
          rw [hc'] at h2
          exact h2.symm
        · simp only [List.mem_singleton] at h1
          exact absurd h1 hne

lemma isQueryAutoApproved_getOutput (s : List ActionType) :
    isQueryAutoApproved s .getOutput = s.contains .getOutput := by
  unfold isQueryAutoApproved
  by_cases hc : s.contains ActionType.getOutput = true
  · rw [if_pos hc, hc]
  · rw [if_neg hc]
    have hc' : s.contains ActionType.getOutput = false := by
      cases h : s.contains ActionType.getOutput
      · rfl
      · exact absurd h hc
    rw [hc']
    simp only [QUERY_HIERARCHY, List.any_cons, List.any_nil]
    have e1 : ([ActionType.getCells, .getSection, .getToc]).contains .getOutput = false := rfl
    have e2 : ([ActionType.getSection, .getToc]).contains .getOutput = false := rfl
    have e3 : ([ActionType.getToc] : List ActionType).contains .getOutput = false := rfl
    have e4 : (([] : List ActionType)).contains .getOutput = false := rfl
    rw [e1, e2, e3, e4]
    simp

lemma isQueryAutoApproved_of_getOutput_approved (s : List ActionType)
    (h : s.contains .getOutput = true) :
    ∀ t, t ∈ ([.getToc, .getSection, .getCells, .getOutput] : List ActionType) →
      isQueryAutoApproved s t = true := by
  intro t ht
  fin_cases ht
  · unfold isQueryAutoApproved
    by_cases hc : s.contains ActionType.getToc = true
    · rw [if_pos hc]
    · rw [if_neg hc]
      simp only [QUERY_HIERARCHY, List.any_cons, List.any_nil]
      rw [h]
      have e : ([ActionType.getCells, .getSection, .getToc]).contains .getToc = true := rfl
      rw [e]
      simp
  · unfold isQueryAutoApproved
    by_cases hc : s.contains ActionType.getSection = true
    · rw [if_pos hc]
    · rw [if_neg hc]
      simp only [QUERY_HIERARCHY, List.any_cons, List.any_nil]
      rw [h]
      have e : ([ActionType.getCells, .getSection, .getToc]).contains .getSection = true := rfl
      rw [e]
      simp
  · unfold isQueryAutoApproved
    by_cases hc : s.contains ActionType.getCells = true
    · rw [if_pos hc]
    · rw [if_neg hc]
      simp only [QUERY_HIERARCHY, List.any_cons, List.any_nil]
      rw [h]
      have e : ([ActionType.getCells, .getSection, .getToc]).contains .getCells = true := rfl
      rw [e]
      simp
  · unfold isQueryAutoApproved
    rw [if_pos h]

lemma addAutoApproval_live (stores : ApprovalStores) (X : String) (t : ActionType)
    (hf : isFileQueryAction { type := t } = false) :
    addAutoApproval ⟨true, X⟩ stores { type := t } =
      { stores with autoApproved := storeAdd stores.autoApproved X t } := by
  unfold addAutoApproval
  rw [hf]
  simp

lemma isActionAutoApproved_live_query (stores : ApprovalStores) (X : String)
    (t : ActionType) (hq : isQueryAction { type := t } = true)
    (hf : isFileQueryAction { type := t } = false) :
    isActionAutoApproved ⟨true, X⟩ stores { type := t } =
      match storeGet stores.autoApproved X with
      | none => false
      | some approved => isQueryAutoApproved approved t := by
  unfold isActionAutoApproved
  rw [hf]
  simp only [Bool.false_eq_true, if_false, Bool.not_true]
  cases storeGet stores.autoApproved X with
  | none => simp
  | some approved => simp [hq]

lemma isActionAutoApproved_live_nonquery (stores : ApprovalStores) (X : String)
    (t : ActionType) (hq : isQueryAction { type := t } = false)
    (hf : isFileQueryAction { type := t } = false) :
    isActionAutoApproved ⟨true, X⟩ stores { type := t } =
      match storeGet stores.autoApproved X with
      | none => false
      | some approved => approved.contains t := by
  unfold isActionAutoApproved
  rw [hf]
  simp only [Bool.false_eq_true, if_false, Bool.not_true]
  cases storeGet stores.autoApproved X with
  | none => simp
  | some approved => simp [hq]

/-- **C4.** After granting "always approve" for `getOutput` scoped to the
active notebook `X`, a subsequent pending live query action (`getCells`,
`getSection`, `getToc`, or `getOutput` itself) while `X` is active is
classified auto-approved; conversely a grant for `getCells` never changes
whether a later `getOutput` is auto-approved; and a mutate action kind is
auto-approved exactly when that kind itself is in the scope's granted set
(no hierarchy for writes). -/
theorem autoApproval_hierarchy :
    (∀ (stores : ApprovalStores) (X : String) (t : ActionType),
      t ∈ ([.getToc, .getSection, .getCells, .getOutput] : List ActionType) →
      isActionAutoApproved ⟨true, X⟩
        (addAutoApproval ⟨true, X⟩ stores { type := .getOutput })
        { type := t } = true)
    ∧ (∀ (stores : ApprovalStores) (X : String),
      isActionAutoApproved ⟨true, X⟩
        (addAutoApproval ⟨true, X⟩ stores { type := .getCells })
        { type := .getOutput } =
      isActionAutoApproved ⟨true, X⟩ stores { type := .getOutput })
    ∧ (∀ (stores : ApprovalStores) (X : String) (m : ActionType),
      m ∈ MUTATE_ACTION_TYPES →
      isActionAutoApproved ⟨true, X⟩ stores { type := m } =
        ((storeGet stores.autoApproved X).getD []).contains m) := by
  refine ⟨?_, ?_, ?_⟩
  · intro stores X t ht
    rw [addAutoApproval_live stores X .getOutput rfl]
    fin_cases ht
    · rw [isActionAutoApproved_live_query _ X .getToc rfl rfl, storeGet_storeAdd_self]
      exact isQueryAutoApproved_of_getOutput_approved _
        (setAdd_contains_self _ _) _ (by decide)
    · rw [isActionAutoApproved_live_query _ X .getSection rfl rfl, storeGet_storeAdd_self]
      exact isQueryAutoApproved_of_getOutput_approved _
        (setAdd_contains_self _ _) _ (by decide)
    · rw [isActionAutoApproved_live_query _ X .getCells rfl rfl, storeGet_storeAdd_self]
      exact isQueryAutoApproved_of_getOutput_approved _
        (setAdd_contains_self _ _) _ (by decide)
    · rw [isActionAutoApproved_live_query _ X .getOutput rfl rfl, storeGet_storeAdd_self]
      exact isQueryAutoApproved_of_getOutput_approved _
        (setAdd_contains_self _ _) _ (by decide)
  · intro stores X
    rw [addAutoApproval_live stores X .getCells rfl,
      isActionAutoApproved_live_query _ X .getOutput rfl rfl,
      isActionAutoApproved_live_query stores X .getOutput rfl rfl,
      storeGet_storeAdd_self]
    show isQueryAutoApproved
      (setAdd ((storeGet stores.autoApproved X).getD []) .getCells) .getOutput = _
    rw [isQueryAutoApproved_getOutput, setAdd_contains_other _ _ _ (by decide)]
    cases hsg : storeGet stores.autoApproved X with
    | none => simp
    | some approved => simp [isQueryAutoApproved_getOutput]
  · intro stores X m hm
    fin_cases hm
    · rw [isActionAutoApproved_live_nonquery stores X .insertCell rfl rfl]
      cases hsg : storeGet stores.autoApproved X with
      | none => simp
      | some approved => simp
    · rw [isActionAutoApproved_live_nonquery stores X .updateCell rfl rfl]
      cases hsg : storeGet stores.autoApproved X with
      | none => simp
      | some approved => simp
    · rw [isActionAutoApproved_live_nonquery stores X .deleteCell rfl rfl]
      cases hsg : storeGet stores.autoApproved X with
      | none => simp
      | some approved => simp
    · rw [isActionAutoApproved_live_nonquery stores X .runCell rfl rfl]
      cases hsg : storeGet stores.autoApproved X with
      | none => simp
      | some approved => simp

theorem autoApproval_hierarchy_witness :
    isActionAutoApproved ⟨true, "nb.ipynb"⟩
      (addAutoApproval ⟨true, "nb.ipynb"⟩ emptyStores { type := .getOutput })
      { type := .getCells } = true
    ∧ isActionAutoApproved ⟨true, "nb.ipynb"⟩ emptyStores { type := .updateCell } =
      ((storeGet emptyStores.autoApproved "nb.ipynb").getD []).contains .updateCell :=
  ⟨autoApproval_hierarchy.1 emptyStores "nb.ipynb" .getCells (by decide),
   autoApproval_hierarchy.2.2 emptyStores "nb.ipynb" .updateCell (by decide)⟩

lemma mem_enumFrom {α : Type} (d : α) (l : List α) :
    ∀ (n i : Nat), i < l.length → (n + i, l.getD i d) ∈ enumFrom n l := by
  induction l with
  | nil => intro n i h; simp at h
  | cons a rest ih =>
    intro n i h
    cases i with
    | zero => simp [enumFrom]
    | succ m =>
      have := ih (n + 1) m (by simpa using h)
      simp only [enumFrom, List.mem_cons]
      right
      have harith : n + (m + 1) = n + 1 + m := by omega
      rw [harith, List.getD_cons_succ]
      exact this

lemma mem_enumFrom_inv {α : Type} (d : α) (l : List α) :
    ∀ (n : Nat) (p : Nat × α), p ∈ enumFrom n l →
      n ≤ p.1 ∧ p.1 - n < l.length ∧ p.2 = l.getD (p.1 - n) d := by
  induction l with
  | nil => intro n p h; simp [enumFrom] at h
  | cons a rest ih =>
    intro n p h
    simp only [enumFrom, List.mem_cons] at h
    rcases h with rfl | h
    · simp
    · obtain ⟨h1, h2, h3⟩ := ih (n + 1) p h
      refine ⟨by omega, by simp; omega, ?_⟩
      have harith : p.1 - n = (p.1 - (n + 1)) + 1 := by omega
      rw [harith, List.getD_cons_succ]
      exact h3

/-- **C5.** A message's pending actions are auto-approved only when every
pending action in it individually passes the auto-approval lookup: if even
one pending action fails the lookup, no status changes and every pending
action remains pending; if all pending actions pass (and one is pending),
every pending action becomes approved and already-decided ones are
untouched. -/
theorem batch_auto_approval (auto : AAction → Bool) (actions : List AAction)
    (stat : Nat → ActionStatus) :
    ((∃ i, i < actions.length ∧ stat i = .pending ∧
        auto (actions.getD i defaultAAction) = false) →
      autoApproveStatuses auto actions stat =
        (enumFrom 0 actions).map (fun p => stat p.1))
    ∧ ((∀ i, i < actions.length → stat i = .pending →
        auto (actions.getD i defaultAAction) = true) →
      autoApproveStatuses auto actions stat =
        (enumFrom 0 actions).map (fun p =>
          if stat p.1 == ActionStatus.pending then ActionStatus.approved
          else stat p.1)) := by
  constructor
  · rintro ⟨i, hi, hp, ha⟩
    have hmem : (0 + i, actions.getD i defaultAAction) ∈ enumFrom 0 actions :=
      mem_enumFrom defaultAAction actions 0 i hi
    have hall : (enumFrom 0 actions).all
        (fun p => !(stat p.1 == ActionStatus.pending) || auto p.2) = false := by
      cases hall0 : (enumFrom 0 actions).all
          (fun p => !(stat p.1 == ActionStatus.pending) || auto p.2) with
      | false => rfl
      | true =>
        have := List.all_eq_true.mp hall0 _ hmem
        rw [Nat.zero_add] at this
        rw [hp, ha] at this
        simp at this
    unfold autoApproveStatuses
    dsimp only
    rw [hall, Bool.and_false]
    simp
  · intro hall
    unfold autoApproveStatuses
    dsimp only
    by_cases hp : (enumFrom 0 actions).any
        (fun p => stat p.1 == ActionStatus.pending) = true
    · have hallb : (enumFrom 0 actions).all
          (fun p => !(stat p.1 == ActionStatus.pending) || auto p.2) = true := by
        rw [List.all_eq_true]
        intro p hpmem
        obtain ⟨hn, hlt, hval⟩ := mem_enumFrom_inv defaultAAction actions 0 p hpmem
        rw [Nat.sub_zero] at hlt hval
        by_cases hst : stat p.1 = ActionStatus.pending
        · have hau := hall p.1 hlt hst
          rw [hval, hau]
          simp
        · simp [hst]
      rw [hp, hallb]
      simp
    · have hpf : (enumFrom 0 actions).any
          (fun p => stat p.1 == ActionStatus.pending) = false := by
        cases h : (enumFrom 0 actions).any
            (fun p => stat p.1 == ActionStatus.pending) with
        | false => rfl
        | true => exact absurd h hp
      rw [hpf, Bool.false_and]
      simp only [Bool.false_eq_true, if_false]
      apply List.map_congr_left
      intro p hpm
      have hnotp : (stat p.1 == ActionStatus.pending) = false := by
        cases h : (stat p.1 == ActionStatus.pending) with
        | false => rfl
        | true =>
          have : (enumFrom 0 actions).any
              (fun p => stat p.1 == ActionStatus.pending) = true :=
            List.any_eq_true.mpr ⟨p, hpm, h⟩
          rw [hpf] at this
          exact Bool.noConfusion this
      rw [hnotp]
      simp

theorem batch_auto_approval_witness :
    autoApproveStatuses
        (fun a => a.type == ActionType.getToc || a.type == ActionType.getCells)
        mixedBatch (fun _ => .pending) =
      (enumFrom 0 mixedBatch).map (fun p => (fun _ => ActionStatus.pending) p.1)
    ∧ autoApproveStatuses (fun _ => true) mixedBatch (fun _ => .pending) =
      (enumFrom 0 mixedBatch).map (fun p =>
        if (fun _ => ActionStatus.pending) p.1 == ActionStatus.pending then
          ActionStatus.approved
        else (fun _ => ActionStatus.pending) p.1) :=
  ⟨(batch_auto_approval
      (fun a => a.type == ActionType.getToc || a.type == ActionType.getCells)
      mixedBatch (fun _ => .pending)).1 ⟨2, by decide, rfl, by decide⟩,
   (batch_auto_approval (fun _ => true) mixedBatch (fun _ => .pending)).2
     (fun i _ _ => rfl)⟩

lemma processLLMResponse_warning_step (jsonParse : String → Except String JValue)
    (send : List IMessage → String) (sysPrompt rawContent : String)
    (currentMessages : List IMessage) (retryCount : Nat)
    (code wmsg rawc : String) (hrc : retryCount < MAX_RETRIES)
    (hparse : parseRawContent jsonParse rawContent = .warning code wmsg rawc) :
    processLLMResponse jsonParse send sysPrompt rawContent currentMessages retryCount =
      processLLMResponse jsonParse send sysPrompt
        (send (sysMessage sysPrompt ::
          (currentMessages ++ [formatErrorPlaceholder, formatErrorFeedback wmsg])))
        (currentMessages ++ [formatErrorPlaceholder, formatErrorFeedback wmsg])
        (retryCount + 1) := by
  rw [processLLMResponse, hparse]
  dsimp only
  rw [dif_pos hrc]

lemma processLLMResponse_warning_exhausted
    (jsonParse : String → Except String JValue)
    (send : List IMessage → String) (sysPrompt rawContent : String)
    (currentMessages : List IMessage) (code wmsg rawc : String)
    (hparse : parseRawContent jsonParse rawContent = .warning code wmsg rawc) :
    processLLMResponse jsonParse send sysPrompt rawContent currentMessages MAX_RETRIES =
      currentMessages ++ [{ role := .assistant, content := rawContent }] := by
  rw [processLLMResponse, hparse]
  dsimp only
  rw [dif_neg (Nat.lt_irrefl MAX_RETRIES)]

/-- **C3.** When the raw reply fails to decode as JSON, the loop appends the
placeholder assistant turn plus a generated correction turn describing the
decode error, resends, and recurses with `retryCount + 1`, for up to
`MAX_RETRIES = 2` additional attempts beyond the first; once the budget is
exhausted (three consecutive undecodable replies) the third raw undecoded
text is appended verbatim as the assistant's message with no actions
attached. -/
theorem processLLMResponse_decode_retry
    (jsonParse : String → Except String JValue)
    (send : List IMessage → String) (sysPrompt : String) :
    (∀ rawContent currentMessages retryCount code wmsg rawc,
      retryCount < MAX_RETRIES →
      parseRawContent jsonParse rawContent = .warning code wmsg rawc →
      processLLMResponse jsonParse send sysPrompt rawContent currentMessages
          retryCount =
        processLLMResponse jsonParse send sysPrompt
          (send (sysMessage sysPrompt ::
            (currentMessages ++
              [formatErrorPlaceholder, formatErrorFeedback wmsg])))
          (currentMessages ++ [formatErrorPlaceholder, formatErrorFeedback wmsg])
          (retryCount + 1))
    ∧ (∀ rawContent currentMessages code wmsg rawc,
      parseRawContent jsonParse rawContent = .warning code wmsg rawc →
      processLLMResponse jsonParse send sysPrompt rawContent currentMessages
          MAX_RETRIES =
        currentMessages ++
          [{ role := .assistant, content := rawContent }])
    ∧ (∀ raw1 currentMessages code1 m1 rawc1 code2 m2 rawc2 code3 m3 rawc3,
      parseRawContent jsonParse raw1 = .warning code1 m1 rawc1 →
      parseRawContent jsonParse (send (sysMessage sysPrompt ::
        (currentMessages ++ [formatErrorPlaceholder, formatErrorFeedback m1]))) =
        .warning code2 m2 rawc2 →
      parseRawContent jsonParse (send (sysMessage sysPrompt ::
        ((currentMessages ++ [formatErrorPlaceholder, formatErrorFeedback m1]) ++
         [formatErrorPlaceholder, formatErrorFeedback m2]))) =
        .warning code3 m3 rawc3 →
      processLLMResponse jsonParse send sysPrompt raw1 currentMessages 0 =
        ((currentMessages ++ [formatErrorPlaceholder, formatErrorFeedback m1]) ++
         [formatErrorPlaceholder, formatErrorFeedback m2]) ++
        [{ role := .assistant
           content := send (sysMessage sysPrompt ::
             ((currentMessages ++
               [formatErrorPlaceholder, formatErrorFeedback m1]) ++
              [formatErrorPlaceholder, formatErrorFeedback m2])) }]) := by
  refine ⟨?_, ?_, ?_⟩
  · intro rawContent currentMessages retryCount code wmsg rawc hrc hparse
    exact processLLMResponse_warning_step jsonParse send sysPrompt rawContent
      currentMessages retryCount code wmsg rawc hrc hparse
  · intro rawContent currentMessages code wmsg rawc hparse
    exact processLLMResponse_warning_exhausted jsonParse send sysPrompt
      rawContent currentMessages code wmsg rawc hparse
  · intro raw1 currentMessages code1 m1 rawc1 code2 m2 rawc2 code3 m3 rawc3
      hp1 hp2 hp3
    rw [processLLMResponse_warning_step jsonParse send sysPrompt raw1
        currentMessages 0 code1 m1 rawc1 (by simp [MAX_RETRIES]) hp1,
      processLLMResponse_warning_step jsonParse send sysPrompt _ _ 1 code2 m2
        rawc2 (by simp [MAX_RETRIES]) hp2]
    exact processLLMResponse_warning_exhausted jsonParse send sysPrompt _ _
      code3 m3 rawc3 hp3

theorem processLLMResponse_decode_retry_witness :
    processLLMResponse jpAlwaysFail sendFixed "sys" "bad reply" [] 0 =
      (([] ++ [formatErrorPlaceholder, formatErrorFeedback "Unexpected token"]) ++
       [formatErrorPlaceholder, formatErrorFeedback "Unexpected token"]) ++
      [{ role := .assistant
         content := sendFixed (sysMessage "sys" ::
           (([] ++
             [formatErrorPlaceholder, formatErrorFeedback "Unexpected token"]) ++
            [formatErrorPlaceholder, formatErrorFeedback "Unexpected token"])) }] :=
  (processLLMResponse_decode_retry jpAlwaysFail sendFixed "sys").2.2
    "bad reply" [] "invalid_json" "Unexpected token" "bad reply"
    "invalid_json" "Unexpected token" "still not JSON"
    "invalid_json" "Unexpected token" "still not JSON"
    rfl rfl rfl
